import Mathlib

/-!
Verification development for the kid-audio repository.

The repository is a small Node.js audio-library pipeline:
- `lib/metadata.js` resolves per-directory `.metadata.json` override documents
  by walking a track's directory ancestry up to `process.cwd()`, merging
  root-to-leaf, and carrying a freshness watermark `__mtime`;
- `bin/prepare_file` (the large script) normalizes each mp3 via a
  backup / wav / normalized-wav / normalized-mp3 chain kept in a `.working`
  cache directory, rewrites ID3 tags and cover art with ffmpeg, and promotes
  the result over the source file;
- `lib/ffmpeg.js` wraps the external ffmpeg tool.

This file shallowly embeds those programs:
- JS objects become association lists of `String × JValue` with
  `Object.assign` semantics;
- the filesystem becomes a map from path to modification time
  (`FS := String → Option Nat`); file contents are not modeled, only
  existence and mtimes, which is all the staleness logic observes;
- every effectful function returns its result together with a log of the
  write effects (`Ev`) it performed, and fallible code returns `Except`;
- external ffmpeg invocations are modeled as succeeding whenever all their
  input files exist (codec-level failures are outside the model) and
  writing their output file with the current time as mtime.
-/

namespace KidAudio

/-! ## JavaScript values and objects -/

/-- A JavaScript value as it appears in this program: strings, numbers,
booleans, `null`, and `Date` objects (used for the `__mtime` watermark,
identified by their epoch timestamp). -/
inductive JValue where
  | vstr (s : String)
  | vnum (n : Int)
  | vbool (b : Bool)
  | vnull
  | vdate (t : Nat)
deriving DecidableEq, Repr

/-- A JavaScript object: an association list of key/value pairs in insertion
order (JS objects enumerate keys in insertion order and cannot hold
duplicate keys; all operations below preserve that invariant). -/
abbrev Obj := List (String × JValue)

/-- Property lookup `o[k]`: `none` models `undefined`. -/
def objGet (o : Obj) (k : String) : Option JValue :=
  (o.find? (fun kv => kv.1 == k)).map (fun kv => kv.2)

/-- Property assignment `o[k] = v`: overwrites in place if the key exists
(keeping its position, as JS does), otherwise appends. -/
def objSet (o : Obj) (k : String) (v : JValue) : Obj :=
  if o.any (fun kv => kv.1 == k) then
    o.map (fun kv => if kv.1 == k then (k, v) else kv)
  else
    o ++ [(k, v)]

/-- `delete o[k]`. -/
def objErase (o : Obj) (k : String) : Obj :=
  o.filter (fun kv => kv.1 != k)

/-- `Object.assign(target, src)`: source keys override target keys one by
one, in source insertion order. -/
def objAssign (target src : Obj) : Obj :=
  src.foldl (fun acc kv => objSet acc kv.1 kv.2) target

/-- JS template-literal stringification of the values this program
interpolates into ffmpeg arguments. -/
def jsStr : JValue → String
  | .vstr s => s
  | .vnum n => toString n
  | .vbool b => if b then "true" else "false"
  | .vnull => "null"
  | .vdate t => toString t

/-! ## Metadata resolution (`lib/metadata.js`)

Directories are modeled as lists of path components from the filesystem
root, so `path.dirname` is `List.dropLast` and the root directory `/` is
`[]` (its own parent, which is the JS recursion's hard stop
`parentDir !== dir`). -/

/-- A directory path, root-first. -/
abbrev Path := List String

/-- Raw contents of a `.metadata.json` file once read:
empty (the code treats `rawMetadata == ""` as an empty layer),
unparseable (JSON.parse throws), or a parsed key/value object. -/
inductive Raw where
  | emptyRaw
  | badJson
  | goodJson (o : Obj)
deriving DecidableEq, Repr

/-- State of a directory's metadata document: absent (ENOENT, not an
error), a read fault other than ENOENT (the code wraps it in an error
naming the file), or present with contents and an mtime. -/
inductive DocState where
  | absent
  | readFault
  | present (raw : Raw) (mtime : Nat)
deriving DecidableEq, Repr

/-- Errors out of metadata resolution. `readError` is the
"`Error reading ${metadataFile}: ...`" wrapper, which carries the
offending file's path; `parseError` is the raw `SyntaxError` escaping
from `JSON.parse`, which carries no file path. -/
inductive MErr where
  | readError (p : Path)
  | parseError
deriving DecidableEq, Repr

/-- Which file, if any, an error message names. -/
def MErr.namesFile : MErr → Option Path
  | .readError p => some p
  | .parseError => none

/-- The metadata document path inside a directory. -/
def metaPath (dir : Path) : Path := dir ++ [".metadata.json"]

/-- Is a document's state a bad (unparseable) present document? -/
def isBadDoc : DocState → Bool
  | .present .badJson _ => true
  | _ => false

/-- mtime of a directory's document, if the document exists. -/
def docMT : DocState → Option Nat
  | .present _ mt => some mt
  | _ => none

/-- One directory layer of `loadMetadataForDirectory`: read the
directory's `.metadata.json` (ENOENT → empty layer; other read faults →
wrapped error naming the file), bump the watermark with the document's
mtime (the code's `if (mtime > __mtime) __mtime = mtime`, applied only
when the file exists), then merge the parsed object over the inherited
metadata (`Object.assign(metadata, JSON.parse(rawMetadata))`; empty
contents merge nothing; unparseable contents throw `JSON.parse`'s own
error). -/
def mergeLayer (docs : Path → DocState) (dir : Path) (m : Obj) (w : Nat) :
    Except MErr (Obj × Nat) :=
  match docs dir with
  | .absent => .ok (m, w)
  | .readFault => .error (.readError (metaPath dir))
  | .present raw mt =>
    let w' := if mt > w then mt else w
    match raw with
    | .emptyRaw => .ok (m, w')
    | .badJson => .error .parseError
    | .goodJson o => .ok (objAssign m o, w')

/-- Core of `loadMetadataForDirectory`: recurse to the parent directory
first unless this directory is the filesystem root (`parentDir === dir`)
or the repository boundary (`dir === process.cwd()`), then read/merge this
directory's own layer. Returns the list of directories whose metadata
document was consulted (in consultation order, root-first) together with
the merged object and the watermark. The watermark is carried separately
as a `Nat`; `0` stands for the initial JS number `0` and any positive
value for a `Date` (a `Date` at epoch `0` compares like the number `0`
in every comparison the code performs, so the two collapse). -/
def loadDirM (cwd : Path) (docs : Path → DocState) (dir : Path) :
    List Path × Except MErr (Obj × Nat) :=
  if h : dir = [] ∨ dir = cwd then
    ([dir], mergeLayer docs dir [] 0)
  else
    match loadDirM cwd docs dir.dropLast with
    | (log, .error e) => (log, .error e)
    | (log, .ok (m, w)) => (log ++ [dir], mergeLayer docs dir m w)
termination_by dir.length
decreasing_by
  have hne : dir ≠ [] := fun hh => h (Or.inl hh)
  have hlen : dir.length ≠ 0 := fun hh => hne (List.eq_nil_of_length_eq_zero hh)
  simp only [List.length_dropLast]
  omega

/-- Encoding of the returned `__mtime` value: the JS code returns the
number `0` when no document was ever seen and a `Date` otherwise. -/
def encodeW (w : Nat) : JValue :=
  if w > 0 then .vdate w else .vnum 0

/-- `loadMetadataForDirectory(dir)`: the merged object with the computed
`__mtime` assigned last (so it overwrites any `__mtime` key a document
itself might carry), plus the consultation log. -/
def loadMetadataForDirectory (cwd : Path) (docs : Path → DocState) (dir : Path) :
    List Path × Except MErr Obj :=
  match loadDirM cwd docs dir with
  | (log, .error e) => (log, .error e)
  | (log, .ok (m, w)) => (log, .ok (objSet m "__mtime" (encodeW w)))

/-- `loadMetadataForFile(file)`: resolve metadata for the file's
directory. -/
def loadMetadataForFile (cwd : Path) (docs : Path → DocState) (f : Path) :
    List Path × Except MErr Obj :=
  loadMetadataForDirectory cwd docs f.dropLast

/-! ## The pipeline (`bin/prepare_file`)

The filesystem is a map from path (a plain string here; the pipeline never
decomposes the paths it is given beyond what `Cfg` precomputes) to the
file's modification time; `none` means the file does not exist. Times are
epoch seconds. -/

/-- Filesystem state: mtime per existing path. -/
abbrev FS := String → Option Nat

/-- Write (create or truncate) a file: its mtime becomes `t`. -/
def wr (fs : FS) (p : String) (t : Nat) : FS :=
  fun q => if q = p then some t else fs q

/-- Remove a file. -/
def rm (fs : FS) (p : String) : FS :=
  fun q => if q = p then none else fs q

/-- `fs.rename(src, dst)`: `dst` takes `src`'s inode (mtime preserved),
`src` disappears. -/
def renameFs (fs : FS) (src dst : String) : FS :=
  fun q => if q = dst then fs src else if q = src then none else fs q

/-- Write effects the pipeline can perform, in the order performed. -/
inductive Ev where
  | copy (src dst : String)
  | rename (src dst : String)
  | ffmpegOut (dst : String)
  | ffmpegNull
  | utimes (p : String) (t : Nat)
  | unlink (p : String)
  | mkdir (d : String)
deriving DecidableEq, Repr

/-- Errors the pipeline can raise. -/
inductive PErr where
  | notMp3 (f : String)
  | ffmpegFail
  | invalidArg
  | fsFail
  | metaErr (e : MErr)
deriving DecidableEq, Repr

/-- The second argument of `needsUpdate`, dispatched by
`typeof dest === "string"` / `instanceof Date`: a path string, a `Date`,
or anything else (which raises `Invalid argument`). The destructured
`__mtime` is passed here; when no metadata document exists it is the
number `0`, hence `finvalid`. -/
inductive FileOrMTime where
  | fpath (p : String)
  | fdate (t : Nat)
  | finvalid
deriving DecidableEq, Repr

/-- Convert the destructured `__mtime` property into the `needsUpdate`
reference argument (`some (.vdate t)` is a `Date`; a string value would be
treated as a path; everything else, including `undefined` and the number
`0`, raises `Invalid argument` when the check is reached). -/
def toRef : Option JValue → FileOrMTime
  | some (.vdate t) => .fdate t
  | some (.vstr s) => .fpath s
  | _ => .finvalid

/-- `needsUpdate(file, destFileOrMTime)` (the pipeline script's version):
stat the reference first — a missing reference path means "needs update";
then stat the candidate, tolerating ENOENT; return
`!stat || stat.mtime < mtime`. -/
def needsUpdate (fs : FS) (file : String) (ref : FileOrMTime) :
    Except PErr Bool :=
  match ref with
  | .fpath p =>
    match fs p with
    | none => .ok true
    | some m =>
      match fs file with
      | none => .ok true
      | some fm => .ok (decide (fm < m))
  | .fdate t =>
    match fs file with
    | none => .ok true
    | some fm => .ok (decide (fm < t))
  | .finvalid => .error .invalidArg

/-- The per-track path bundle the script computes from the source file
path `file` (directory `d`, stem `x`):
`file = d/x.mp3`, `work = d/.working`,
`norm = d/.working/x.normalized.mp3` (the cache's final artifact, also the
target of `ffmpegWavToMp3`), `backup = d/.working/x.original.mp3`,
`wav = d/.working/x.wav`, `normWav = d/.working/x.normalized.wav`,
`cover = d/.working/x.cover.png`, `temp = d/.working/.temp.mp3`. -/
structure Cfg where
  file : String
  norm : String
  backup : String
  wav : String
  normWav : String
  cover : String
  temp : String
  work : String
deriving DecidableEq, Repr

/-- The distinctness facts the real path construction guarantees (all
eight paths above are pairwise distinct strings; `work` is a directory and
only its inequality with `file` matters). -/
def CfgOk (c : Cfg) : Prop :=
  c.file ≠ c.norm ∧ c.file ≠ c.backup ∧ c.file ≠ c.wav ∧ c.file ≠ c.normWav ∧
  c.file ≠ c.cover ∧ c.file ≠ c.temp ∧ c.file ≠ c.work ∧
  c.norm ≠ c.backup ∧ c.norm ≠ c.wav ∧ c.norm ≠ c.normWav ∧ c.norm ≠ c.cover ∧
  c.norm ≠ c.temp ∧ c.norm ≠ c.work ∧
  c.backup ≠ c.wav ∧ c.backup ≠ c.normWav ∧ c.backup ≠ c.cover ∧
  c.backup ≠ c.temp ∧
  c.wav ≠ c.normWav ∧ c.wav ≠ c.cover ∧ c.wav ≠ c.temp ∧
  c.normWav ≠ c.cover ∧ c.normWav ≠ c.temp ∧
  c.cover ≠ c.temp

instance (c : Cfg) : Decidable (CfgOk c) := by
  unfold CfgOk; infer_instance

/-- One ffmpeg invocation producing an output file: models `ffmpeg(args)`
as succeeding iff every input file exists (a missing input makes ffmpeg
exit nonzero, surfacing as an `ExternalToolError`; codec-level failures
are outside this model). On success the output file is (over)written with
the current time. -/
def ffmpegRun (fs : FS) (inputs : List String) (out : String) (now : Nat) :
    Except PErr FS × List Ev :=
  if inputs.all (fun p => (fs p).isSome) then
    (.ok (wr fs out now), [.ffmpegOut out])
  else
    (.error .ffmpegFail, [])

/-- `createOriginalVersion(file)`: mkdir the working dir, then return the
existing backup untouched if present (`stat` succeeds), else
`copyFile(file, originalFile)`. -/
def createOriginalVersion (c : Cfg) (fs : FS) (now : Nat) :
    Except PErr FS × List Ev :=
  if (fs c.backup).isSome then
    (.ok fs, [.mkdir c.work])
  else if (fs c.file).isSome then
    (.ok (wr fs c.backup now), [.mkdir c.work, .copy c.file c.backup])
  else
    (.error .fsFail, [.mkdir c.work])

/-- `extractCoverArt(file)`: mkdir, then
`ffmpeg -i file -an -c:v copy -y coverArtFile`. -/
def extractCoverArt (c : Cfg) (fs : FS) (now : Nat) :
    Except PErr FS × List Ev :=
  match ffmpegRun fs [c.file] c.cover now with
  | (r, l) => (r, .mkdir c.work :: l)

/-- `createWavVersion(file)`: return the existing wav untouched if
present, else mkdir and `ffmpeg -i file -n wavFile`. -/
def createWavVersion (c : Cfg) (fs : FS) (now : Nat) :
    Except PErr FS × List Ev :=
  if (fs c.wav).isSome then
    (.ok fs, [])
  else
    match ffmpegRun fs [c.file] c.wav now with
    | (r, l) => (r, .mkdir c.work :: l)

/-- `normalizeWavFile(file)`: return the existing normalized wav untouched
if present, else run `ffmpegNormalize`: pass 1 measures loudness writing
no file (`-f null -`), pass 2 applies the measured values producing the
normalized wav. -/
def normalizeWavFile (c : Cfg) (fs : FS) (now : Nat) :
    Except PErr FS × List Ev :=
  if (fs c.normWav).isSome then
    (.ok fs, [])
  else if (fs c.wav).isSome then
    match ffmpegRun fs [c.wav] c.normWav now with
    | (r, l) => (r, .ffmpegNull :: l)
  else
    (.error .ffmpegFail, [])

/-- `doNormalization(file, normalizedFile)`: ensure backup, extract cover
art, ensure wav, two-pass normalize, re-encode the normalized wav to mp3
(`ffmpegWavToMp3`, overwriting the cache's normalized mp3), then unlink
both intermediate wavs. (`createOriginalVersion` and `extractCoverArt`
run under one `Promise.all`; their effects touch disjoint paths, so they
are sequenced here.) -/
def doNormalization (c : Cfg) (fs : FS) (now : Nat) :
    Except PErr FS × List Ev :=
  match createOriginalVersion c fs now with
  | (.error e, l) => (.error e, l)
  | (.ok fs1, l1) =>
    match extractCoverArt c fs1 now with
    | (.error e, l) => (.error e, l1 ++ l)
    | (.ok fs2, l2) =>
      match createWavVersion c fs2 now with
      | (.error e, l) => (.error e, l1 ++ l2 ++ l)
      | (.ok fs3, l3) =>
        match normalizeWavFile c fs3 now with
        | (.error e, l) => (.error e, l1 ++ l2 ++ l3 ++ l)
        | (.ok fs4, l4) =>
          match ffmpegRun fs4 [c.normWav] c.norm now with
          | (.error e, l) => (.error e, l1 ++ l2 ++ l3 ++ l4 ++ l)
          | (.ok fs5, l5) =>
            if (fs5 c.wav).isSome ∧ (fs5 c.normWav).isSome then
              (.ok (rm (rm fs5 c.wav) c.normWav),
               l1 ++ l2 ++ l3 ++ l4 ++ l5 ++
                 [.unlink c.wav, .unlink c.normWav])
            else
              (.error .fsFail, l1 ++ l2 ++ l3 ++ l4 ++ l5)

/-! ### Tag construction -/

/-- The reserved keys that never become ID3 tags. -/
def METADATA_KEYS_THAT_ARE_NOT_ID3_TAGS : List String := ["__mtime", "setTrack"]

/-- `buildFfmpegId3Args(inputFile, outputFile, metadata)`: start from
`["-y", "-i", inputFile]`, push `"-metadata", "key=value"` for every key
not in the reserved list (in object key order), then push the output
path. -/
def buildFfmpegId3Args (inputFile outputFile : String) (metadata : Obj) :
    List String :=
  (metadata.foldl
    (fun args kv =>
      if kv.1 ∈ METADATA_KEYS_THAT_ARE_NOT_ID3_TAGS then args
      else args ++ ["-metadata", kv.1 ++ "=" ++ jsStr kv.2])
    ["-y", "-i", inputFile]) ++ [outputFile]

/-- Does `s` end with `suf`? (string primitives are implemented here on
the character list so that concrete instances evaluate inside proofs). -/
def strEndsWith (s suf : String) : Bool :=
  suf.data.isSuffixOf s.data

/-- `path.basename(p)`: the part after the last `/`. -/
def baseName (p : String) : String :=
  String.mk ((p.data.reverse.takeWhile (fun c => c ≠ '/')).reverse)

/-- `path.basename(p, suffix)`: strip the suffix when present. -/
def stripSuffix (s suf : String) : String :=
  if strEndsWith s suf then
    String.mk (s.data.take (s.data.length - suf.data.length))
  else s

/-- The `/\.mp3$/` test. -/
def mp3Name (s : String) : Bool := strEndsWith s ".mp3"

/-- Lexicographic comparison on character lists (code-point order, which
is what JS's default string comparison gives on these names). -/
def strLtChars : List Char → List Char → Bool
  | [], [] => false
  | [], _ :: _ => true
  | _ :: _, [] => false
  | a :: as, b :: bs =>
    if a.toNat < b.toNat then true
    else if b.toNat < a.toNat then false
    else strLtChars as bs

/-- The `≤` the sort uses. -/
def jsLe (a b : String) : Bool := !(strLtChars b.data a.data)

/-- JS `Array.prototype.sort()` on strings (lexicographic), as a stable
insertion sort. -/
def insertSorted (s : String) : List String → List String
  | [] => [s]
  | x :: xs => if jsLe s x then s :: x :: xs else x :: insertSorted s xs

/-- Sort a list of file names the way `.sort()` does. -/
def sortStr (l : List String) : List String := l.foldr insertSorted []

/-- JS `findIndex`: first matching index, or `-1`. -/
def jsFindIndex (p : String → Bool) (l : List String) : Int :=
  match l.findIdx? p with
  | some i => Int.ofNat i
  | none => -1

/-- Is a value `null`/`undefined` (the `??` operator's trigger)? -/
def nullish : Option JValue → Bool
  | none => true
  | some .vnull => true
  | some _ => false

/-- `getFileMetadata(file, metadata)`: title is always the filename stem;
unless `setTrack` is literally `false`, compute the 1-based position among
the directory's sorted mp3 files as `"position/total"` (skipped when
`findIndex` returns `-1`) and default `disc` to `1` when nullish; finally
`delete result.setTrack` unconditionally. `fileBase` is
`path.basename(file)` and `dirFiles` is `readdir(dirname(file))`. -/
def getFileMetadata (fileBase : String) (dirFiles : List String)
    (metadata : Obj) : Obj :=
  let title := stripSuffix fileBase ".mp3"
  let allFiles := sortStr (dirFiles.filter (fun f => mp3Name f))
  let result := objSet metadata "title" (.vstr title)
  let result :=
    if objGet metadata "setTrack" ≠ some (.vbool false) then
      let track : Int := jsFindIndex (fun f => f == fileBase) allFiles + 1
      let result :=
        if track > 0 then
          objSet result "track"
            (.vstr (toString track ++ "/" ++ toString allFiles.length))
        else result
      if nullish (objGet result "disc") then
        objSet result "disc" (.vnum 1)
      else result
    else result
  objErase result "setTrack"

/-- `updateFileMetadata(file, metadata)` where `file` is the cache's
normalized mp3: pass 1 rewrites it with the ID3 tag arguments into the
temp path and renames the temp over it; then — unconditionally — pass 2
multiplexes the cover-art file as an attached image stream
(`-map 0:0 -map 1:0 -codec copy -metadata:s:v title=Album cover /
comment=Cover (front)`) into the temp path and renames again. -/
def updateFileMetadata (c : Cfg) (md : Obj) (fs : FS) (now : Nat) :
    Except PErr FS × List Ev :=
  let _args := buildFfmpegId3Args c.norm c.temp md
  match ffmpegRun fs [c.norm] c.temp now with
  | (.error e, l) => (.error e, l)
  | (.ok fs1, l1) =>
    let fs2 := renameFs fs1 c.temp c.norm
    match ffmpegRun fs2 [c.norm, c.cover] c.temp now with
    | (.error e, l) => (.error e, l1 ++ [.rename c.temp c.norm] ++ l)
    | (.ok fs3, l3) =>
      (.ok (renameFs fs3 c.temp c.norm),
       l1 ++ [.rename c.temp c.norm] ++ l3 ++ [.rename c.temp c.norm])

/-- `processFile(file)`: the per-track orchestrator. `meta` is the result
of `loadMetadataForFile(file)` (the metadata documents live outside the
artifact paths, so it is a run-invariant input here), `sibs` is
`readdir(dirname(file))`. Steps: extension gate; re-normalize when the
cache's normalized mp3 is stale against the source; destructure
`__mtime` out of the resolved metadata; re-tag when normalization ran
(short-circuit) or the source is stale against the watermark; if anything
was produced, `copyFile` the normalized artifact over the source path and
`utimes` the normalized artifact. `Date.now()` (milliseconds) is passed to
`fs.utimes`, which interprets plain numbers as epoch *seconds*, so the
cache artifact's mtime becomes `1000 * now`. -/
def processFile (c : Cfg) (meta : Except MErr Obj) (sibs : List String)
    (fs : FS) (now : Nat) : Except PErr FS × List Ev :=
  if mp3Name c.file then
    match needsUpdate fs c.norm (.fpath c.file) with
    | .error e => (.error e, [])
    | .ok b1 =>
      match (if b1 then doNormalization c fs now else (.ok fs, [])) with
      | (.error e, l1) => (.error e, l1)
      | (.ok fs1, l1) =>
        match meta with
        | .error e => (.error (.metaErr e), l1)
        | .ok obj =>
          match (if b1 then Except.ok true
                 else needsUpdate fs1 c.file (toRef (objGet obj "__mtime"))) with
          | .error e => (.error e, l1)
          | .ok b2 =>
            match (if b2 then
                     updateFileMetadata c
                       (getFileMetadata (baseName c.file) sibs
                         (objErase obj "__mtime")) fs1 now
                   else (.ok fs1, [])) with
            | (.error e, l2) => (.error e, l1 ++ l2)
            | (.ok fs2, l2) =>
              if b2 then
                match fs2 c.norm with
                | none => (.error .fsFail, l1 ++ l2)
                | some _ =>
                  (.ok (wr (wr fs2 c.file now) c.norm (1000 * now)),
                   l1 ++ l2 ++ [.copy c.norm c.file,
                                .utimes c.norm (1000 * now)])
              else (.ok fs2, l1 ++ l2)
  else (.error (.notMp3 c.file), [])

/-- One pipeline job: a track's path bundle, its (run-invariant) resolved
metadata, and its directory listing. -/
structure Job where
  c : Cfg
  meta : Except MErr Obj
  sibs : List String

/-- `run(files)`: `files.reduce`-chained sequential processing; a
rejection halts the remaining tracks. -/
def runList : List Job → FS → Nat → Except PErr FS × List Ev
  | [], fs, _ => (.ok fs, [])
  | j :: rest, fs, now =>
    match processFile j.c j.meta j.sibs fs now with
    | (.error e, l) => (.error e, l)
    | (.ok fs', l) =>
      match runList rest fs' now with
      | (r, l2) => (r, l ++ l2)

/-! ## Derived notions used by the statements below -/

/-- The modification time a `needsUpdate` reference resolves to, when it
resolves to one (a `Date`'s timestamp, or the referenced artifact's mtime
when that artifact exists). -/
def refMTime (fs : FS) (ref : FileOrMTime) : Option Nat :=
  match ref with
  | .fpath p => fs p
  | .fdate t => some t
  | .finvalid => none

/-- The path a write effect mutates (`none` for the measurement pass,
which writes nothing). -/
def evTarget : Ev → Option String
  | .copy _ d => some d
  | .rename _ d => some d
  | .ffmpegOut d => some d
  | .ffmpegNull => none
  | .utimes p _ => some p
  | .unlink p => some p
  | .mkdir d => some d

/-- Is a write effect a rename onto path `p`? -/
def renameOnto (p : String) : Ev → Bool
  | .rename _ d => d == p
  | _ => false

/-- A document state that never makes resolution fail: not a read fault
and not unparseable. -/
def GoodDoc : DocState → Prop
  | .readFault => False
  | .present .badJson _ => False
  | _ => True

instance : DecidablePred GoodDoc := fun s => by
  unfold GoodDoc
  match s with
  | .absent => exact inferInstanceAs (Decidable True)
  | .readFault => exact inferInstanceAs (Decidable False)
  | .present .emptyRaw _ => exact inferInstanceAs (Decidable True)
  | .present .badJson _ => exact inferInstanceAs (Decidable False)
  | .present (.goodJson _) _ => exact inferInstanceAs (Decidable True)

/-- The well-formedness the metadata layer guarantees for the `__mtime`
property of a successfully resolved metadata object whose documents all
have mtimes `≤ now`: it is the number `0` (no document existed) or a
`Date` no newer than `now`. -/
def MetaW (meta : Except MErr Obj) (now : Nat) : Prop :=
  ∀ obj, meta = .ok obj →
    objGet obj "__mtime" = some (.vnum 0) ∨
    ∃ t, t ≤ now ∧ objGet obj "__mtime" = some (.vdate t)

/-- The paths a single `processFile` run may write. -/
def writePaths (c : Cfg) : List String :=
  [c.file, c.norm, c.backup, c.wav, c.normWav, c.cover, c.temp]

/-- The complete set of write effects a `processFile` run can emit. -/
def PipeEv (c : Cfg) (now : Nat) (ev : Ev) : Prop :=
  ev = .mkdir c.work ∨ ev = .copy c.file c.backup ∨ ev = .ffmpegOut c.cover ∨
  ev = .ffmpegOut c.wav ∨ ev = .ffmpegNull ∨ ev = .ffmpegOut c.normWav ∨
  ev = .ffmpegOut c.norm ∨ ev = .unlink c.wav ∨ ev = .unlink c.normWav ∨
  ev = .ffmpegOut c.temp ∨ ev = .rename c.temp c.norm ∨
  ev = .copy c.norm c.file ∨ ev = .utimes c.norm (1000 * now)

/-- Well-formedness of a job list at time `now`: every job has distinct
paths and well-formed metadata, and no later job writes an earlier job's
source or normalized-artifact path (distinct tracks have distinct stems,
so their artifact paths differ). -/
def JobsWf (now : Nat) : List Job → Prop
  | [] => True
  | j :: rest =>
    CfgOk j.c ∧ MetaW j.meta now ∧
    (∀ k ∈ rest, j.c.file ∉ writePaths k.c ∧ j.c.norm ∉ writePaths k.c) ∧
    JobsWf now rest

/-! ## Concrete instances used by witnesses and counterexamples -/

/-- A concrete path bundle for the track `/d/a.mp3` (exactly the paths
the script computes for it). -/
def cA : Cfg :=
  { file := "/d/a.mp3", norm := "/d/.working/a.normalized.mp3",
    backup := "/d/.working/a.original.mp3", wav := "/d/.working/a.wav",
    normWav := "/d/.working/a.normalized.wav",
    cover := "/d/.working/a.cover.png", temp := "/d/.working/.temp.mp3",
    work := "/d/.working" }

/-- A filesystem holding only the source track (first-ever run). -/
def fsFresh : FS := fun p => if p = "/d/a.mp3" then some 10 else none

/-- A filesystem where source and cache artifact both exist and are
fresh. -/
def fsDone : FS := fun p =>
  if p = "/d/a.mp3" then some 10
  else if p = "/d/.working/a.normalized.mp3" then some 15 else none

/-- A resolved-metadata value with watermark `Date(3)`. -/
def metaA : Except MErr Obj := .ok [("artist", .vstr "A"), ("__mtime", .vdate 3)]

/-- The post-run filesystem of claim C8's failing input: a run at time
`100` left the cache artifact's mtime at `1000 * 100` (the
`Date.now()`-milliseconds-into-`utimes`-seconds slip), the backup exists,
the intermediate wavs were unlinked, and the source track's bytes were
then changed at time `200`. -/
def fsC8 : FS := fun p =>
  if p = "/d/a.mp3" then some 200
  else if p = "/d/.working/a.normalized.mp3" then some 100000
  else if p = "/d/.working/a.original.mp3" then some 100
  else if p = "/d/.working/a.cover.png" then some 100 else none

/-- A filesystem where the cache's normalized artifact exists but no
cover-art image does. -/
def fsNoCover : FS := fun p =>
  if p = "/d/.working/a.normalized.mp3" then some 15 else none

/-- The C7 scenario's documents: root `{artist: "A"}`, subdirectory
`{album: "B"}`. -/
def docs7 : Path → DocState := fun d =>
  if d = ["h"] then .present (.goodJson [("artist", .vstr "A")]) 5
  else if d = ["h", "b"] then .present (.goodJson [("album", .vstr "B")]) 7
  else .absent

/-- The C7 directory listing: three mp3 tracks plus the metadata document
and the cache directory. -/
def sibs7 : List String :=
  [".metadata.json", ".working", "01 Intro.mp3", "02 Song.mp3", "03 End.mp3"]

/-- Documents with one unparseable document at `["r", "s"]`. -/
def docsBad : Path → DocState := fun d =>
  if d = ["r", "s"] then .present .badJson 5 else .absent

/-- Documents with one good document at `["r"]` and nothing anywhere
else. -/
def docsGood : Path → DocState := fun d =>
  if d = ["r"] then .present (.goodJson [("artist", .vstr "A")]) 5 else .absent

/-! ## Supporting lemmas -/

theorem objGet_objErase_self (o : Obj) (k : String) :
    objGet (objErase o k) k = none := by
  have hall : ∀ kv ∈ objErase o k, ¬((fun kv : String × JValue => kv.1 == k) kv = true) := by
    intro kv hm
    have h2 := (List.mem_filter.mp hm).2
    simp only [bne_iff_ne, ne_eq] at h2
    simpa using h2
  simp [objGet, List.find?_eq_none.mpr hall]

theorem buildArgs_foldl (m : Obj) (init : List String) :
    m.foldl
      (fun args kv =>
        if kv.1 ∈ METADATA_KEYS_THAT_ARE_NOT_ID3_TAGS then args
        else args ++ ["-metadata", kv.1 ++ "=" ++ jsStr kv.2]) init
    = init ++
      ((m.filter
          (fun kv => decide (kv.1 ∉ METADATA_KEYS_THAT_ARE_NOT_ID3_TAGS))).map
        (fun kv => ["-metadata", kv.1 ++ "=" ++ jsStr kv.2])).flatten := by
  induction m generalizing init with
  | nil => simp
  | cons kv t ih =>
    by_cases h : kv.1 ∈ METADATA_KEYS_THAT_ARE_NOT_ID3_TAGS
    · simp [List.foldl, List.filter, h, ih]
    · simp [List.foldl, List.filter, h, ih]

theorem lmd_log (cwd : Path) (docs : Path → DocState) (dir : Path) :
    (loadMetadataForDirectory cwd docs dir).1 = (loadDirM cwd docs dir).1 := by
  unfold loadMetadataForDirectory
  rcases h : loadDirM cwd docs dir with ⟨log, r⟩
  cases r with
  | error e => rfl
  | ok mw => rcases mw with ⟨m, w⟩; rfl

theorem mergeLayer_error (docs : Path → DocState) (dir : Path) (m : Obj)
    (w : Nat) (e : MErr) (hf : docs dir ≠ .readFault)
    (he : mergeLayer docs dir m w = .error e) : e = .parseError := by
  unfold mergeLayer at he
  cases hd : docs dir with
  | absent => rw [hd] at he; cases he
  | readFault => exact absurd hd hf
  | present raw mt =>
    rw [hd] at he
    cases raw with
    | emptyRaw => cases he
    | badJson => cases he; rfl
    | goodJson o => cases he

theorem ldm_error_parse (cwd : Path) (docs : Path → DocState)
    (hf : ∀ d, docs d ≠ .readFault) :
    ∀ dir e, (loadDirM cwd docs dir).2 = .error e → e = .parseError := by
  refine loadDirM.induct cwd docs
    (fun dir => ∀ e, (loadDirM cwd docs dir).2 = .error e → e = .parseError)
    ?_ ?_ ?_
  · intro x hx e he
    rw [loadDirM.eq_def, dif_pos hx] at he
    exact mergeLayer_error docs x [] 0 e (hf x) he
  · intro x hx log e0 heq ih e he
    rw [loadDirM.eq_def, dif_neg hx, heq] at he
    cases he
    exact ih e0 (by rw [heq])
  · intro x hx log m w heq ih e he
    rw [loadDirM.eq_def, dif_neg hx, heq] at he
    exact mergeLayer_error docs x m w e (hf x) he

theorem mergeLayer_ok_not_bad (docs : Path → DocState) (dir : Path) (m : Obj)
    (w : Nat) (r : Obj × Nat) (hok : mergeLayer docs dir m w = .ok r) :
    isBadDoc (docs dir) = false := by
  unfold mergeLayer at hok
  cases hd : docs dir with
  | absent => rfl
  | readFault => rw [hd] at hok; cases hok
  | present raw mt =>
    rw [hd] at hok
    cases raw with
    | emptyRaw => rfl
    | badJson => cases hok
    | goodJson o => rfl

theorem ldm_ok_no_bad (cwd : Path) (docs : Path → DocState) :
    ∀ dir m w, (loadDirM cwd docs dir).2 = .ok (m, w) →
      ∀ d ∈ (loadDirM cwd docs dir).1, isBadDoc (docs d) = false := by
  refine loadDirM.induct cwd docs
    (fun dir => ∀ m w, (loadDirM cwd docs dir).2 = .ok (m, w) →
      ∀ d ∈ (loadDirM cwd docs dir).1, isBadDoc (docs d) = false)
    ?_ ?_ ?_
  · intro x hx m w hok d hd
    rw [loadDirM.eq_def, dif_pos hx] at hok hd
    simp only [List.mem_singleton] at hd
    subst hd
    exact mergeLayer_ok_not_bad docs d [] 0 (m, w) hok
  · intro x hx log e0 heq ih m w hok
    rw [loadDirM.eq_def, dif_neg hx, heq] at hok
    cases hok
  · intro x hx log m0 w0 heq ih m w hok d hd
    rw [loadDirM.eq_def, dif_neg hx, heq] at hok hd
    rcases List.mem_append.mp hd with hmem | hmem
    · exact ih m0 w0 (by rw [heq]) d (by rw [heq]; exact hmem)
    · simp only [List.mem_singleton] at hmem
      subst hmem
      exact mergeLayer_ok_not_bad docs d m0 w0 (m, w) hok

theorem mergeLayer_ok_of_good (docs : Path → DocState) (dir : Path) (m : Obj)
    (w : Nat) (hg : GoodDoc (docs dir)) :
    ∃ m2 w2, mergeLayer docs dir m w = .ok (m2, w2) := by
  unfold mergeLayer
  cases hd : docs dir with
  | absent => exact ⟨m, w, rfl⟩
  | readFault => rw [hd] at hg; exact absurd hg id
  | present raw mt =>
    rw [hd] at hg
    cases raw with
    | emptyRaw => exact ⟨m, if mt > w then mt else w, rfl⟩
    | badJson => exact absurd hg id
    | goodJson o => exact ⟨objAssign m o, if mt > w then mt else w, rfl⟩

theorem ldm_ok_of_good (cwd : Path) (docs : Path → DocState)
    (hg : ∀ d, GoodDoc (docs d)) :
    ∀ dir, ∃ m w, (loadDirM cwd docs dir).2 = .ok (m, w) := by
  refine loadDirM.induct cwd docs
    (fun dir => ∃ m w, (loadDirM cwd docs dir).2 = .ok (m, w)) ?_ ?_ ?_
  · intro x hx
    rw [loadDirM.eq_def, dif_pos hx]
    exact mergeLayer_ok_of_good docs x [] 0 (hg x)
  · intro x hx log e0 heq ih
    rcases ih with ⟨m, w, hm⟩
    rw [heq] at hm
    cases hm
  · intro x hx log m0 w0 heq ih
    rw [loadDirM.eq_def, dif_neg hx, heq]
    exact mergeLayer_ok_of_good docs x m0 w0 (hg x)

theorem consulted_mem (cwd : Path) (docs : Path → DocState)
    (hg : ∀ d, GoodDoc (docs d)) :
    ∀ dir, cwd <+: dir →
      ∀ d, d ∈ (loadDirM cwd docs dir).1 ↔ (cwd <+: d ∧ d <+: dir) := by
  refine loadDirM.induct cwd docs
    (fun dir => cwd <+: dir →
      ∀ d, d ∈ (loadDirM cwd docs dir).1 ↔ (cwd <+: d ∧ d <+: dir)) ?_ ?_ ?_
  · intro x hx hpre d
    rw [loadDirM.eq_def, dif_pos hx]
    simp only [List.mem_singleton]
    constructor
    · rintro rfl
      exact ⟨hpre, List.prefix_rfl⟩
    · rintro ⟨h1, h2⟩
      rcases hx with rfl | rfl
      · rcases h2 with ⟨t2, ht2⟩
        exact (List.append_eq_nil.mp ht2).1
      · rcases h1 with ⟨a, ha⟩
        rcases h2 with ⟨b, hb⟩
        rw [← ha, List.append_assoc] at hb
        have hlen := congrArg List.length hb
        simp only [List.length_append] at hlen
        have ha0 : a = [] := List.length_eq_zero.mp (by omega)
        rw [← ha, ha0, List.append_nil]
  · intro x hx log e0 heq ih hpre d
    rcases ldm_ok_of_good cwd docs hg x.dropLast with ⟨m, w, hm⟩
    rw [heq] at hm
    cases hm
  · intro x hx log m0 w0 heq ih hpre d
    have hxne : x ≠ [] := fun hh => hx (Or.inl hh)
    rcases hpre with ⟨t, ht⟩
    have htne : t ≠ [] := by
      rintro rfl
      exact hx (Or.inr (by rw [← ht, List.append_nil]))
    have hpre' : cwd <+: x.dropLast := by
      refine ⟨t.dropLast, ?_⟩
      rw [← ht, List.dropLast_append_of_ne_nil cwd htne]
    have hlog : (loadDirM cwd docs x.dropLast).1 = log := by rw [heq]
    rw [loadDirM.eq_def, dif_neg hx, heq]
    simp only [List.mem_append, List.mem_singleton]
    constructor
    · rintro (hmem | rfl)
      · have h := (ih hpre' d).mp (by rw [hlog]; exact hmem)
        refine ⟨h.1, h.2.trans ?_⟩
        exact ⟨[x.getLast hxne], List.dropLast_append_getLast hxne⟩
      · exact ⟨⟨t, ht⟩, List.prefix_rfl⟩
    · rintro ⟨h1, h2⟩
      rcases h2 with ⟨u, hu⟩
      by_cases hune : u = []
      · right
        rw [← hu, hune, List.append_nil]
      · left
        rw [← hlog]
        refine (ih hpre' d).mpr ⟨h1, ⟨u.dropLast, ?_⟩⟩
        rw [← hu, List.dropLast_append_of_ne_nil d hune]

theorem mergeLayer_ok_watermark (docs : Path → DocState) (dir : Path)
    (m : Obj) (w : Nat) (o : Obj) (w2 : Nat)
    (hok : mergeLayer docs dir m w = .ok (o, w2)) :
    w2 = ((docMT (docs dir)).elim w (fun mt => max w mt)) := by
  unfold mergeLayer at hok
  cases hd : docs dir with
  | absent =>
    rw [hd] at hok
    cases hok
    rfl
  | readFault => rw [hd] at hok; cases hok
  | present raw mt =>
    rw [hd] at hok
    cases raw with
    | emptyRaw =>
      simp only [Except.ok.injEq, Prod.mk.injEq] at hok
      simp only [docMT, Option.elim]
      rw [← hok.2]
      split <;> omega
    | badJson => cases hok
    | goodJson o2 =>
      simp only [Except.ok.injEq, Prod.mk.injEq] at hok
      simp only [docMT, Option.elim]
      rw [← hok.2]
      split <;> omega

theorem ldm_watermark (cwd : Path) (docs : Path → DocState) :
    ∀ dir o w, (loadDirM cwd docs dir).2 = .ok (o, w) →
      w = ((loadDirM cwd docs dir).1.filterMap
        (fun d => docMT (docs d))).foldl max 0 := by
  refine loadDirM.induct cwd docs
    (fun dir => ∀ o w, (loadDirM cwd docs dir).2 = .ok (o, w) →
      w = ((loadDirM cwd docs dir).1.filterMap
        (fun d => docMT (docs d))).foldl max 0) ?_ ?_ ?_
  · intro x hx o w hok
    have hres : loadDirM cwd docs x = ([x], mergeLayer docs x [] 0) := by
      rw [loadDirM.eq_def, dif_pos hx]
    rw [hres] at hok ⊢
    have hok2 : mergeLayer docs x [] 0 = .ok (o, w) := hok
    have h := mergeLayer_ok_watermark docs x [] 0 o w hok2
    show w = ([x].filterMap (fun d => docMT (docs d))).foldl max 0
    cases hd : docs x with
    | absent =>
      rw [hd] at h
      simp only [docMT, Option.elim] at h
      simp [List.filterMap, docMT, hd, h]
    | readFault => simp [mergeLayer, hd] at hok2
    | present raw mt =>
      rw [hd] at h
      simp only [docMT, Option.elim] at h
      simp [List.filterMap, docMT, hd, h]
  · intro x hx log e0 heq ih o w hok
    rw [loadDirM.eq_def, dif_neg hx, heq] at hok
    cases hok
  · intro x hx log m0 w0 heq ih o w hok
    have ihw : w0 = (log.filterMap (fun d => docMT (docs d))).foldl max 0 := by
      have h := ih m0 w0 (by rw [heq])
      rwa [heq] at h
    have hres : loadDirM cwd docs x = (log ++ [x], mergeLayer docs x m0 w0) := by
      rw [loadDirM.eq_def, dif_neg hx, heq]
    rw [hres] at hok ⊢
    have hok2 : mergeLayer docs x m0 w0 = .ok (o, w) := hok
    have h := mergeLayer_ok_watermark docs x m0 w0 o w hok2
    show w = ((log ++ [x]).filterMap (fun d => docMT (docs d))).foldl max 0
    rw [List.filterMap_append, List.foldl_append, ← ihw]
    cases hd : docs x with
    | absent =>
      rw [hd] at h
      simp only [docMT, Option.elim] at h
      simp [List.filterMap, docMT, hd, h]
    | readFault => simp [mergeLayer, hd] at hok2
    | present raw mt =>
      rw [hd] at h
      simp only [docMT, Option.elim] at h
      simp [List.filterMap, docMT, hd, h]

/-! ## Claim C2 -/

/-- Claim C2 counterexample: a directory whose metadata document holds
unparseable contents makes resolution fail, but with `JSON.parse`'s own
error, which names no file — the file-naming wrapper only covers read
faults, not parse failures — so the claim that the parse error names the
offending file is false at this input. -/
theorem c2_counterexample :
    (loadMetadataForDirectory ["r"] docsBad ["r", "s"]).2 = .error .parseError ∧
    MErr.namesFile .parseError = none := by
  constructor
  · simp +decide [loadMetadataForDirectory, loadDirM, docsBad, mergeLayer]
  · rfl

/-- Claim C2 (amended): if any consulted document is unparseable (and no
read fault occurs first), resolution fails with the raw JSON parse error,
which does not name the offending file; if every document is absent,
empty, or parseable, resolution succeeds — in particular a missing
document never causes a failure, and an absent document is an empty
layer, leaving the merged metadata and watermark unchanged. -/
theorem c2_parse_and_missing (cwd : Path) (docs : Path → DocState) (dir : Path)
    (hf : ∀ d, docs d ≠ .readFault) :
    ((∃ d ∈ (loadMetadataForDirectory cwd docs dir).1, isBadDoc (docs d) = true) →
      (loadMetadataForDirectory cwd docs dir).2 = .error .parseError ∧
      MErr.namesFile .parseError = none) ∧
    ((∀ d, GoodDoc (docs d)) →
      ∃ o, (loadMetadataForDirectory cwd docs dir).2 = .ok o) ∧
    (∀ d m w, docs d = .absent → mergeLayer docs d m w = .ok (m, w)) := by
  refine ⟨?_, ?_, ?_⟩
  · rintro ⟨d, hd, hbad⟩
    rw [lmd_log] at hd
    unfold loadMetadataForDirectory
    rcases h : loadDirM cwd docs dir with ⟨log, r⟩
    cases r with
    | error e =>
      have : e = .parseError := ldm_error_parse cwd docs hf dir e (by rw [h])
      subst this
      exact ⟨rfl, rfl⟩
    | ok mw =>
      rcases mw with ⟨m, w⟩
      have hnb := ldm_ok_no_bad cwd docs dir m w (by rw [h]) d (by rw [h]; rw [h] at hd; exact hd)
      rw [hnb] at hbad
      cases hbad
  · intro hg
    rcases ldm_ok_of_good cwd docs hg dir with ⟨m, w, hm⟩
    unfold loadMetadataForDirectory
    rcases h : loadDirM cwd docs dir with ⟨log, r⟩
    rw [h] at hm
    cases r with
    | error e => simp at hm
    | ok mw =>
      rcases mw with ⟨m2, w2⟩
      exact ⟨objSet m2 "__mtime" (encodeW w2), rfl⟩
  · intro d m w hd
    simp [mergeLayer, hd]

/-- Witness for C2's theorem at a concrete input: documents with a single
well-formed document and no faults resolve successfully. -/
theorem c2_parse_and_missing_witness :
    ∃ o, (loadMetadataForDirectory ["r"] docsGood ["r", "s", "t"]).2 = .ok o :=
  (c2_parse_and_missing ["r"] docsGood ["r", "s", "t"]
    (by intro d; unfold docsGood; by_cases hd : d = ["r"]
        · rw [if_pos hd]; simp
        · rw [if_neg hd]; simp)).2.1
    (by intro d; unfold docsGood; by_cases hd : d = ["r"]
        · rw [if_pos hd]; trivial
        · rw [if_neg hd]; trivial)

/-! ## Claim C5 -/

/-- Claim C5: for a track inside the repository (the fixed boundary
`process.cwd()` is an ancestor of — or equal to — the track's directory),
successful metadata resolution consults exactly the directories from the
track's immediate parent upward to the boundary: a directory's document
is read iff that directory lies between the boundary and the parent
(inclusive) in the ancestry order, so no directory above the boundary is
ever consulted. -/
theorem c5_consulted_dirs (cwd : Path) (docs : Path → DocState) (f : Path)
    (hg : ∀ d, GoodDoc (docs d)) (hb : cwd <+: f.dropLast) :
    ∀ d, d ∈ (loadMetadataForFile cwd docs f).1 ↔
      (cwd <+: d ∧ d <+: f.dropLast) := by
  intro d
  unfold loadMetadataForFile
  rw [lmd_log]
  exact consulted_mem cwd docs hg f.dropLast hb d

/-- Witness for C5 at a concrete input: for the track
`/r/s/t.mp3` with boundary `/r`, the directory `/r/s` is consulted and
the filesystem root (above the boundary) is not. -/
theorem c5_consulted_dirs_witness :
    (["r", "s"] ∈ (loadMetadataForFile ["r"] docsGood ["r", "s", "t.mp3"]).1) ∧
    (([] : Path) ∉ (loadMetadataForFile ["r"] docsGood ["r", "s", "t.mp3"]).1) := by
  have hg : ∀ d, GoodDoc (docsGood d) := by
    intro d
    unfold docsGood
    by_cases hd : d = ["r"]
    · rw [if_pos hd]; trivial
    · rw [if_neg hd]; trivial
  have hb : (["r"] : Path) <+: (["r", "s", "t.mp3"] : Path).dropLast :=
    ⟨["s"], rfl⟩
  constructor
  · exact (c5_consulted_dirs ["r"] docsGood ["r", "s", "t.mp3"] hg hb
      ["r", "s"]).mpr ⟨⟨["s"], rfl⟩, ⟨[], rfl⟩⟩
  · intro hmem
    have h := (c5_consulted_dirs ["r"] docsGood ["r", "s", "t.mp3"] hg hb
      []).mp hmem
    rcases h.1 with ⟨t, ht⟩
    simp at ht

/-! ## Claim C9 -/

/-- Claim C9: when resolution succeeds, the watermark it carries equals
the maximum modification time among the metadata documents that exist in
the consulted directories (directories without a document contribute
nothing; with no documents at all the watermark is the initial `0`). -/
theorem c9_watermark (cwd : Path) (docs : Path → DocState) (dir : Path)
    (o : Obj) (w : Nat) (h : (loadDirM cwd docs dir).2 = .ok (o, w)) :
    w = ((loadDirM cwd docs dir).1.filterMap
      (fun d => docMT (docs d))).foldl max 0 :=
  ldm_watermark cwd docs dir o w h

/-- Witness for C9 at a concrete input: the two documents of the C7
scenario (mtimes 5 and 7) give watermark 7. -/
theorem c9_watermark_witness :
    (7 : Nat) = ((loadDirM ["h"] docs7 ["h", "b"]).1.filterMap
      (fun d => docMT (docs7 d))).foldl max 0 :=
  c9_watermark ["h"] docs7 ["h", "b"]
    [("artist", .vstr "A"), ("album", .vstr "B")] 7
    (by simp +decide [loadDirM, docs7, mergeLayer, objAssign, objSet])

/-! ## Claim C4 -/

/-- Claim C4: for every candidate path and reference whose modification
time resolves (an existing artifact path or a timestamp), `needsUpdate`
returns `true` exactly when the candidate does not exist or its
modification time is strictly earlier than the reference's, and returns
`false` otherwise (always succeeding). -/
theorem c4_needsUpdate_spec (fs : FS) (file : String) (ref : FileOrMTime)
    (t : Nat) (h : refMTime fs ref = some t) :
    ∃ b, needsUpdate fs file ref = .ok b ∧
      (b = true ↔ (fs file = none ∨ ∃ m, fs file = some m ∧ m < t)) := by
  cases ref with
  | fpath p =>
    simp only [refMTime] at h
    cases hf : fs file with
    | none => exact ⟨true, by simp [needsUpdate, h, hf]⟩
    | some fm =>
      refine ⟨decide (fm < t), by simp [needsUpdate, h, hf], ?_⟩
      simp [hf]
  | fdate t2 =>
    simp only [refMTime, Option.some.injEq] at h
    subst h
    cases hf : fs file with
    | none => exact ⟨true, by simp [needsUpdate, hf]⟩
    | some fm =>
      refine ⟨decide (fm < t2), by simp [needsUpdate, hf], ?_⟩
      simp [hf]
  | finvalid => simp [refMTime] at h

/-- Witness for C4 at a concrete input: the candidate `/d/a.mp3` exists
with mtime `10` and the reference is the timestamp `5`. -/
theorem c4_needsUpdate_spec_witness :
    ∃ b, needsUpdate fsFresh "/d/a.mp3" (.fdate 5) = .ok b ∧
      (b = true ↔ (fsFresh "/d/a.mp3" = none ∨
        ∃ m, fsFresh "/d/a.mp3" = some m ∧ m < 5)) :=
  c4_needsUpdate_spec fsFresh "/d/a.mp3" (.fdate 5) 5 rfl

/-! ## Claim C10 -/

/-- Claim C10: the reserved keys `__mtime` and `setTrack` are never
emitted as tag arguments by `buildFfmpegId3Args` — every non-reserved key
passes through verbatim as a `-metadata key=value` pair, in order, and
nothing else is emitted besides the fixed prefix and the output path —
and `setTrack` is removed from the result of `getFileMetadata` whether or
not numbering was disabled. -/
theorem c10_reserved_keys :
    ∀ (i o : String) (m : Obj) (fb : String) (df : List String) (md : Obj),
      buildFfmpegId3Args i o m
        = ["-y", "-i", i] ++
          ((m.filter
              (fun kv =>
                decide (kv.1 ∉ METADATA_KEYS_THAT_ARE_NOT_ID3_TAGS))).map
            (fun kv => ["-metadata", kv.1 ++ "=" ++ jsStr kv.2])).flatten ++
          [o] ∧
      objGet (getFileMetadata fb df md) "setTrack" = none := by
  intro i o m fb df md
  constructor
  · simp [buildFfmpegId3Args, buildArgs_foldl]
  · unfold getFileMetadata
    exact objGet_objErase_self _ "setTrack"

/-! ## Claim C7 -/

/-- Claim C7: end-to-end scenario — with root metadata `{artist: "A"}`,
subdirectory metadata `{album: "B"}`, and a directory holding exactly
three track files of which `"02 Song.mp3"` is at sorted position 2, the
metadata computed for that track (resolution, `__mtime` destructured
away, then `getFileMetadata` as `processFile` invokes it) is
`{artist: "A", album: "B", title: "02 Song", track: "2/3", disc: 1}`. -/
theorem c7_end_to_end :
    (loadMetadataForFile ["h"] docs7 ["h", "b", "02 Song.mp3"]).2.map
      (fun obj => getFileMetadata "02 Song.mp3" sibs7 (objErase obj "__mtime"))
    = .ok [("artist", .vstr "A"), ("album", .vstr "B"),
           ("title", .vstr "02 Song"), ("track", .vstr "2/3"),
           ("disc", .vnum 1)] := by
  have h1 : (loadMetadataForFile ["h"] docs7 ["h", "b", "02 Song.mp3"]).2
      = .ok [("artist", .vstr "A"), ("album", .vstr "B"),
             ("__mtime", .vdate 7)] := by
    simp +decide [loadMetadataForFile, loadMetadataForDirectory, loadDirM,
      docs7, mergeLayer, objAssign, objSet, objGet, encodeW]
  rw [h1]
  rfl

/-! ## Pipeline event enumeration -/

theorem ffmpegRun_events (fs : FS) (ins : List String) (out : String)
    (now : Nat) : ∀ ev ∈ (ffmpegRun fs ins out now).2, ev = .ffmpegOut out := by
  intro ev hev
  unfold ffmpegRun at hev
  split at hev
  · simpa using hev
  · simp at hev

theorem createOriginalVersion_events (c : Cfg) (fs : FS) (now : Nat) :
    ∀ ev ∈ (createOriginalVersion c fs now).2, PipeEv c now ev := by
  intro ev hev
  unfold createOriginalVersion at hev
  unfold PipeEv
  split at hev
  · simp only [List.mem_singleton] at hev
    tauto
  · split at hev
    · simp only [List.mem_cons, List.mem_singleton, List.not_mem_nil] at hev
      tauto
    · simp only [List.mem_singleton] at hev
      tauto

theorem extractCoverArt_events (c : Cfg) (fs : FS) (now : Nat) :
    ∀ ev ∈ (extractCoverArt c fs now).2, PipeEv c now ev := by
  intro ev hev
  unfold extractCoverArt at hev
  rcases hr : ffmpegRun fs [c.file] c.cover now with ⟨r, l⟩
  have hl := ffmpegRun_events fs [c.file] c.cover now
  rw [hr] at hev hl
  simp only [List.mem_cons] at hev
  rcases hev with rfl | hev
  · unfold PipeEv; tauto
  · have := hl ev hev
    unfold PipeEv; tauto

theorem createWavVersion_events (c : Cfg) (fs : FS) (now : Nat) :
    ∀ ev ∈ (createWavVersion c fs now).2, PipeEv c now ev := by
  intro ev hev
  unfold createWavVersion at hev
  split at hev
  · simp at hev
  · rcases hr : ffmpegRun fs [c.file] c.wav now with ⟨r, l⟩
    have hl := ffmpegRun_events fs [c.file] c.wav now
    rw [hr] at hev hl
    simp only [List.mem_cons] at hev
    rcases hev with rfl | hev
    · unfold PipeEv; tauto
    · have := hl ev hev
      unfold PipeEv; tauto

theorem normalizeWavFile_events (c : Cfg) (fs : FS) (now : Nat) :
    ∀ ev ∈ (normalizeWavFile c fs now).2, PipeEv c now ev := by
  intro ev hev
  unfold normalizeWavFile at hev
  split at hev
  · simp at hev
  · split at hev
    · rcases hr : ffmpegRun fs [c.wav] c.normWav now with ⟨r, l⟩
      have hl := ffmpegRun_events fs [c.wav] c.normWav now
      rw [hr] at hev hl
      simp only [List.mem_cons] at hev
      rcases hev with rfl | hev
      · unfold PipeEv; tauto
      · have := hl ev hev
        unfold PipeEv; tauto
    · simp at hev

theorem doNormalization_events (c : Cfg) (fs : FS) (now : Nat) :
    ∀ ev ∈ (doNormalization c fs now).2, PipeEv c now ev := by
  intro ev hev
  unfold doNormalization at hev
  rcases h1 : createOriginalVersion c fs now with ⟨r1, l1⟩
  have hl1 := createOriginalVersion_events c fs now
  rw [h1] at hev hl1
  cases r1 with
  | error e => exact hl1 ev hev
  | ok fs1 =>
    dsimp only at hev
    rcases h2 : extractCoverArt c fs1 now with ⟨r2, l2⟩
    have hl2 := extractCoverArt_events c fs1 now
    rw [h2] at hev hl2
    cases r2 with
    | error e =>
      rcases List.mem_append.mp hev with hm | hm
      · exact hl1 ev hm
      · exact hl2 ev hm
    | ok fs2 =>
      dsimp only at hev
      rcases h3 : createWavVersion c fs2 now with ⟨r3, l3⟩
      have hl3 := createWavVersion_events c fs2 now
      rw [h3] at hev hl3
      cases r3 with
      | error e =>
        rcases List.mem_append.mp hev with hm | hm
        · rcases List.mem_append.mp hm with hm2 | hm2
          · exact hl1 ev hm2
          · exact hl2 ev hm2
        · exact hl3 ev hm
      | ok fs3 =>
        dsimp only at hev
        rcases h4 : normalizeWavFile c fs3 now with ⟨r4, l4⟩
        have hl4 := normalizeWavFile_events c fs3 now
        rw [h4] at hev hl4
        cases r4 with
        | error e =>
          rcases List.mem_append.mp hev with hm | hm
          · rcases List.mem_append.mp hm with hm2 | hm2
            · rcases List.mem_append.mp hm2 with hm3 | hm3
              · exact hl1 ev hm3
              · exact hl2 ev hm3
            · exact hl3 ev hm2
          · exact hl4 ev hm
        | ok fs4 =>
          dsimp only at hev
          rcases h5 : ffmpegRun fs4 [c.normWav] c.norm now with ⟨r5, l5⟩
          have hl5 := ffmpegRun_events fs4 [c.normWav] c.norm now
          rw [h5] at hev hl5
          cases r5 with
          | error e =>
            rcases List.mem_append.mp hev with hm | hm
            · rcases List.mem_append.mp hm with hm2 | hm2
              · rcases List.mem_append.mp hm2 with hm3 | hm3
                · rcases List.mem_append.mp hm3 with hm4 | hm4
                  · exact hl1 ev hm4
                  · exact hl2 ev hm4
                · exact hl3 ev hm3
              · exact hl4 ev hm2
            · have := hl5 ev hm
              unfold PipeEv; tauto
          | ok fs5 =>
            dsimp only at hev
            split at hev
            · simp only [List.append_assoc, List.mem_append,
                List.mem_cons, List.not_mem_nil, or_false] at hev
              rcases hev with hm | hm | hm | hm | hm | hm | hm
              · exact hl1 ev hm
              · exact hl2 ev hm
              · exact hl3 ev hm
              · exact hl4 ev hm
              · have := hl5 ev hm
                unfold PipeEv; tauto
              · subst hm; unfold PipeEv; tauto
              · subst hm; unfold PipeEv; tauto
            · simp only [List.append_assoc, List.mem_append] at hev
              rcases hev with hm | hm | hm | hm | hm
              · exact hl1 ev hm
              · exact hl2 ev hm
              · exact hl3 ev hm
              · exact hl4 ev hm
              · have := hl5 ev hm
                unfold PipeEv; tauto

theorem updateFileMetadata_events (c : Cfg) (md : Obj) (fs : FS) (now : Nat) :
    ∀ ev ∈ (updateFileMetadata c md fs now).2, PipeEv c now ev := by
  intro ev hev
  unfold updateFileMetadata at hev
  rcases h1 : ffmpegRun fs [c.norm] c.temp now with ⟨r1, l1⟩
  have hl1 := ffmpegRun_events fs [c.norm] c.temp now
  rw [h1] at hev hl1
  cases r1 with
  | error e =>
    have := hl1 ev hev
    unfold PipeEv; tauto
  | ok fs1 =>
    dsimp only at hev
    rcases h2 : ffmpegRun (renameFs fs1 c.temp c.norm) [c.norm, c.cover]
        c.temp now with ⟨r2, l2⟩
    have hl2 := ffmpegRun_events (renameFs fs1 c.temp c.norm)
      [c.norm, c.cover] c.temp now
    rw [h2] at hev hl2
    cases r2 with
    | error e =>
      dsimp only at hev
      simp only [List.append_assoc, List.mem_append, List.mem_cons,
        List.not_mem_nil, or_false] at hev
      rcases hev with hm | hm | hm
      · have := hl1 ev hm
        unfold PipeEv; tauto
      · subst hm; unfold PipeEv; tauto
      · have := hl2 ev hm
        unfold PipeEv; tauto
    | ok fs3 =>
      dsimp only at hev
      simp only [List.append_assoc, List.mem_append, List.mem_cons,
        List.not_mem_nil, or_false] at hev
      rcases hev with hm | hm | hm | hm
      · have := hl1 ev hm
        unfold PipeEv; tauto
      · subst hm; unfold PipeEv; tauto
      · have := hl2 ev hm
        unfold PipeEv; tauto
      · subst hm; unfold PipeEv; tauto

theorem processFile_events (c : Cfg) (meta : Except MErr Obj)
    (sibs : List String) (fs : FS) (now : Nat) :
    ∀ ev ∈ (processFile c meta sibs fs now).2, PipeEv c now ev := by
  intro ev hev
  unfold processFile at hev
  by_cases hmp3 : mp3Name c.file = true
  · rw [if_pos hmp3] at hev
    cases hnu : needsUpdate fs c.norm (.fpath c.file) with
    | error e => rw [hnu] at hev; simp at hev
    | ok b1 =>
      rw [hnu] at hev
      dsimp only at hev
      rcases hdn : (if b1 then doNormalization c fs now else (.ok fs, []))
        with ⟨r1, l1⟩
      have hl1 : ∀ e2 ∈ l1, PipeEv c now e2 := by
        cases b1 with
        | false =>
          rw [if_neg (by simp)] at hdn
          cases hdn
          simp
        | true =>
          rw [if_pos rfl] at hdn
          have h := doNormalization_events c fs now
          rw [hdn] at h
          exact h
      rw [hdn] at hev
      cases r1 with
      | error e => exact hl1 ev hev
      | ok fs1 =>
        dsimp only at hev
        cases meta with
        | error e => exact hl1 ev hev
        | ok obj =>
          dsimp only at hev
          cases hb2 : (if b1 then Except.ok true
              else needsUpdate fs1 c.file (toRef (objGet obj "__mtime"))) with
          | error e => rw [hb2] at hev; exact hl1 ev hev
          | ok b2 =>
            rw [hb2] at hev
            dsimp only at hev
            rcases hup : (if b2 then
                updateFileMetadata c
                  (getFileMetadata (baseName c.file) sibs
                    (objErase obj "__mtime")) fs1 now
              else (.ok fs1, [])) with ⟨r2, l2⟩
            have hl2 : ∀ e2 ∈ l2, PipeEv c now e2 := by
              cases b2 with
              | false =>
                rw [if_neg (by simp)] at hup
                cases hup
                simp
              | true =>
                rw [if_pos rfl] at hup
                have h := updateFileMetadata_events c
                  (getFileMetadata (baseName c.file) sibs
                    (objErase obj "__mtime")) fs1 now
                rw [hup] at h
                exact h
            rw [hup] at hev
            cases r2 with
            | error e =>
              dsimp only at hev
              rcases List.mem_append.mp hev with hm | hm
              · exact hl1 ev hm
              · exact hl2 ev hm
            | ok fs2 =>
              dsimp only at hev
              cases b2 with
              | false =>
                rw [if_neg (by simp)] at hev
                rcases List.mem_append.mp hev with hm | hm
                · exact hl1 ev hm
                · exact hl2 ev hm
              | true =>
                rw [if_pos rfl] at hev
                cases hn2 : fs2 c.norm with
                | none =>
                  rw [hn2] at hev
                  dsimp only at hev
                  rcases List.mem_append.mp hev with hm | hm
                  · exact hl1 ev hm
                  · exact hl2 ev hm
                | some m =>
                  rw [hn2] at hev
                  dsimp only at hev
                  simp only [List.append_assoc, List.mem_append,
                    List.mem_cons, List.not_mem_nil, or_false] at hev
                  rcases hev with hm | hm | hm | hm
                  · exact hl1 ev hm
                  · exact hl2 ev hm
                  · subst hm; unfold PipeEv; tauto
                  · subst hm; unfold PipeEv; tauto
  · rw [if_neg hmp3] at hev
    simp at hev

/-! ## Claim C3 -/

/-- Claim C3 counterexample: with the cache's normalized artifact present
but no cover-art image, the tag writer does not succeed with only the
first rewrite pass — the unconditional second (cover-multiplexing) pass
is still attempted, its tool invocation fails on the missing input, and
`updateFileMetadata` fails after having performed the first pass. -/
theorem c3_counterexample :
    updateFileMetadata cA [("title", .vstr "a")] fsNoCover 20
      = (.error .ffmpegFail,
         [.ffmpegOut "/d/.working/.temp.mp3",
          .rename "/d/.working/.temp.mp3" "/d/.working/a.normalized.mp3"]) := by
  rfl

/-- Claim C3 (amended): the second rewrite pass is performed
unconditionally — there is no existence check on the cover-art image.
When the image exists the tag writer succeeds having performed both
temp-file-and-rename passes; when it does not exist, the second pass's
tool invocation fails and tag writing fails after the first pass, rather
than succeeding with only the first pass. -/
theorem c3_cover_pass (c : Cfg) (md : Obj) (fs : FS) (now : Nat)
    (hok : CfgOk c) (hn : (fs c.norm).isSome = true) :
    ((fs c.cover).isSome = true →
      ∃ fs2, updateFileMetadata c md fs now
        = (.ok fs2, [.ffmpegOut c.temp, .rename c.temp c.norm,
                     .ffmpegOut c.temp, .rename c.temp c.norm])) ∧
    (fs c.cover = none →
      updateFileMetadata c md fs now
        = (.error .ffmpegFail, [.ffmpegOut c.temp, .rename c.temp c.norm])) := by
  obtain ⟨hfn, hfb, hfw, hfnw, hfc, hft, hfwk, hnb, hnw, hnnw, hnc, hnt, hnwk,
    hbw, hbnw, hbc, hbt, hwnw, hwc, hwt, hnwc, hnwt, hct⟩ := hok
  have e1 : ffmpegRun fs [c.norm] c.temp now
      = (.ok (wr fs c.temp now), [.ffmpegOut c.temp]) := by
    simp [ffmpegRun, hn]
  have e2 : (renameFs (wr fs c.temp now) c.temp c.norm) c.norm = some now := by
    simp [renameFs, wr]
  have e3 : (renameFs (wr fs c.temp now) c.temp c.norm) c.cover
      = fs c.cover := by
    simp [renameFs, wr, (Ne.symm hnc : c.cover ≠ c.norm), hct]
  constructor
  · intro hc
    have e4 : ffmpegRun (renameFs (wr fs c.temp now) c.temp c.norm)
        [c.norm, c.cover] c.temp now
        = (.ok (wr (renameFs (wr fs c.temp now) c.temp c.norm) c.temp now),
           [.ffmpegOut c.temp]) := by
      simp [ffmpegRun, e2, e3, hc]
    refine ⟨renameFs (wr (renameFs (wr fs c.temp now) c.temp c.norm)
      c.temp now) c.temp c.norm, ?_⟩
    unfold updateFileMetadata
    rw [e1]
    dsimp only
    rw [e4]
    rfl
  · intro hc
    have e4 : ffmpegRun (renameFs (wr fs c.temp now) c.temp c.norm)
        [c.norm, c.cover] c.temp now = (.error .ffmpegFail, []) := by
      simp [ffmpegRun, e2, e3, hc]
    unfold updateFileMetadata
    rw [e1]
    dsimp only
    rw [e4]
    rfl

/-- Witness for C3's theorem at a concrete input: with cache artifact and
cover art both present, both passes run and tag writing succeeds. -/
theorem c3_cover_pass_witness :
    ((fsC8 cA.cover).isSome = true →
      ∃ fs2, updateFileMetadata cA [("title", .vstr "a")] fsC8 20
        = (.ok fs2, [.ffmpegOut cA.temp, .rename cA.temp cA.norm,
                     .ffmpegOut cA.temp, .rename cA.temp cA.norm])) ∧
    (fsC8 cA.cover = none →
      updateFileMetadata cA [("title", .vstr "a")] fsC8 20
        = (.error .ffmpegFail,
           [.ffmpegOut cA.temp, .rename cA.temp cA.norm])) :=
  c3_cover_pass cA [("title", .vstr "a")] fsC8 20 (by decide) (by decide)

/-! ## Claim C8 -/

/-- Claim C8 evaluated at its failing input: after a completed run at
time 100, the backup exists (mtime 100) and the cache's normalized
artifact carries the far-future mtime `1000 * 100` that
`fs.utimes(normalizedFile, Date.now(), Date.now())` stamped on it
(milliseconds passed to an API expecting epoch seconds). The source
track's bytes were then changed (mtime 200 > 100). The next run performs
no write at all: the staleness check compares `100000 < 200`, so neither
the backup (correct per the claim) nor any downstream artifact (contrary
to the claim) is regenerated. -/
theorem c8_stale_normalized_not_invalidated :
    fsC8 "/d/.working/a.original.mp3" = some 100 ∧
    fsC8 "/d/a.mp3" = some 200 ∧
    fsC8 "/d/.working/a.normalized.mp3" = some 100000 ∧
    (processFile cA metaA ["a.mp3"] fsC8 201).1 = .ok fsC8 ∧
    (processFile cA metaA ["a.mp3"] fsC8 201).2 = [] := by
  exact ⟨rfl, rfl, rfl, rfl, rfl⟩

/-! ## Claim C1 -/

/-- Claim C1 counterexample: a complete first-time run promotes the final
artifact over the Track's own path with `fs.copyFile` — the run's write
log contains a copy onto the Track's path and no rename onto it — so the
claim that the overwrite happens via an atomic rename and never via a
copy is false at this input. -/
theorem c1_counterexample :
    Ev.copy cA.norm cA.file ∈ (processFile cA metaA ["a.mp3"] fsFresh 20).2 ∧
    (processFile cA metaA ["a.mp3"] fsFresh 20).2.all
      (fun ev => !(renameOnto cA.file ev)) = true := by
  exact ⟨by decide, by decide⟩

/-- Claim C1 (amended): the Track's own path is only ever written by the
final promotion of the cache's normalized artifact — every write effect
of a `processFile` run that targets the Track's path is that single
`fs.copyFile(normalizedFile, file)` — but that overwrite is a file copy,
not an atomic rename; the temp-file-and-rename discipline applies only to
the cache artifacts. -/
theorem c1_promotion_writes (c : Cfg) (meta : Except MErr Obj)
    (sibs : List String) (fs : FS) (now : Nat) (hok : CfgOk c) :
    ∀ ev ∈ (processFile c meta sibs fs now).2,
      evTarget ev = some c.file → ev = .copy c.norm c.file := by
  obtain ⟨hfn, hfb, hfw, hfnw, hfc, hft, hfwk, hnb, hnw, hnnw, hnc, hnt, hnwk,
    hbw, hbnw, hbc, hbt, hwnw, hwc, hwt, hnwc, hnwt, hct⟩ := hok
  intro ev hev htgt
  have h := processFile_events c meta sibs fs now ev hev
  unfold PipeEv at h
  rcases h with rfl | rfl | rfl | rfl | rfl | rfl | rfl | rfl | rfl | rfl |
    rfl | rfl | rfl
  · exact absurd (Option.some.inj htgt).symm hfwk
  · exact absurd (Option.some.inj htgt).symm hfb
  · exact absurd (Option.some.inj htgt).symm hfc
  · exact absurd (Option.some.inj htgt).symm hfw
  · exact absurd htgt (by simp [evTarget])
  · exact absurd (Option.some.inj htgt).symm hfnw
  · exact absurd (Option.some.inj htgt).symm hfn
  · exact absurd (Option.some.inj htgt).symm hfw
  · exact absurd (Option.some.inj htgt).symm hfnw
  · exact absurd (Option.some.inj htgt).symm hft
  · exact absurd (Option.some.inj htgt).symm hfn
  · rfl
  · exact absurd (Option.some.inj htgt).symm hfn

/-- Witness for C1's theorem at a concrete input: a full first-time run
over `/d/a.mp3`. -/
theorem c1_promotion_writes_witness :
    CfgOk cA ∧
    (∀ ev ∈ (processFile cA metaA ["a.mp3"] fsFresh 20).2,
      evTarget ev = some cA.file → ev = .copy cA.norm cA.file) :=
  ⟨by decide, c1_promotion_writes cA metaA ["a.mp3"] fsFresh 20 (by decide)⟩

/-! ## Preservation: a run only writes its own artifact paths -/

theorem ffmpegRun_preserves (fs : FS) (ins : List String) (out : String)
    (now : Nat) (fs2 : FS) (l : List Ev) (p : String) (hp : p ≠ out)
    (h : ffmpegRun fs ins out now = (.ok fs2, l)) : fs2 p = fs p := by
  unfold ffmpegRun at h
  split at h
  · simp only [Prod.mk.injEq, Except.ok.injEq] at h
    rw [← h.1]
    simp [wr, hp]
  · simp at h

theorem createOriginalVersion_preserves (c : Cfg) (fs : FS) (now : Nat)
    (fs2 : FS) (l : List Ev) (p : String) (hp : p ≠ c.backup)
    (h : createOriginalVersion c fs now = (.ok fs2, l)) : fs2 p = fs p := by
  unfold createOriginalVersion at h
  split at h
  · simp only [Prod.mk.injEq, Except.ok.injEq] at h
    rw [← h.1]
  · split at h
    · simp only [Prod.mk.injEq, Except.ok.injEq] at h
      rw [← h.1]
      simp [wr, hp]
    · simp at h

theorem extractCoverArt_preserves (c : Cfg) (fs : FS) (now : Nat)
    (fs2 : FS) (l : List Ev) (p : String) (hp : p ≠ c.cover)
    (h : extractCoverArt c fs now = (.ok fs2, l)) : fs2 p = fs p := by
  unfold extractCoverArt at h
  rcases hr : ffmpegRun fs [c.file] c.cover now with ⟨r, l2⟩
  rw [hr] at h
  cases r with
  | error e => simp at h
  | ok fs3 =>
    simp only [Prod.mk.injEq, Except.ok.injEq] at h
    rw [← h.1]
    exact ffmpegRun_preserves fs [c.file] c.cover now fs3 l2 p hp hr

theorem createWavVersion_preserves (c : Cfg) (fs : FS) (now : Nat)
    (fs2 : FS) (l : List Ev) (p : String) (hp : p ≠ c.wav)
    (h : createWavVersion c fs now = (.ok fs2, l)) : fs2 p = fs p := by
  unfold createWavVersion at h
  split at h
  · simp only [Prod.mk.injEq, Except.ok.injEq] at h
    rw [← h.1]
  · rcases hr : ffmpegRun fs [c.file] c.wav now with ⟨r, l2⟩
    rw [hr] at h
    cases r with
    | error e => simp at h
    | ok fs3 =>
      simp only [Prod.mk.injEq, Except.ok.injEq] at h
      rw [← h.1]
      exact ffmpegRun_preserves fs [c.file] c.wav now fs3 l2 p hp hr

theorem normalizeWavFile_preserves (c : Cfg) (fs : FS) (now : Nat)
    (fs2 : FS) (l : List Ev) (p : String) (hp : p ≠ c.normWav)
    (h : normalizeWavFile c fs now = (.ok fs2, l)) : fs2 p = fs p := by
  unfold normalizeWavFile at h
  split at h
  · simp only [Prod.mk.injEq, Except.ok.injEq] at h
    rw [← h.1]
  · split at h
    · rcases hr : ffmpegRun fs [c.wav] c.normWav now with ⟨r, l2⟩
      rw [hr] at h
      cases r with
      | error e => simp at h
      | ok fs3 =>
        simp only [Prod.mk.injEq, Except.ok.injEq] at h
        rw [← h.1]
        exact ffmpegRun_preserves fs [c.wav] c.normWav now fs3 l2 p hp hr
    · simp at h

theorem doNormalization_preserves (c : Cfg) (fs : FS) (now : Nat)
    (fs2 : FS) (l : List Ev) (p : String) (hb : p ≠ c.backup)
    (hc : p ≠ c.cover) (hw : p ≠ c.wav) (hnw : p ≠ c.normWav)
    (hn : p ≠ c.norm)
    (h : doNormalization c fs now = (.ok fs2, l)) : fs2 p = fs p := by
  unfold doNormalization at h
  rcases h1 : createOriginalVersion c fs now with ⟨r1, l1⟩
  rw [h1] at h
  cases r1 with
  | error e => simp at h
  | ok fsa =>
    dsimp only at h
    rcases h2 : extractCoverArt c fsa now with ⟨r2, l2⟩
    rw [h2] at h
    cases r2 with
    | error e => simp at h
    | ok fsb =>
      dsimp only at h
      rcases h3 : createWavVersion c fsb now with ⟨r3, l3⟩
      rw [h3] at h
      cases r3 with
      | error e => simp at h
      | ok fsc =>
        dsimp only at h
        rcases h4 : normalizeWavFile c fsc now with ⟨r4, l4⟩
        rw [h4] at h
        cases r4 with
        | error e => simp at h
        | ok fsd =>
          dsimp only at h
          rcases h5 : ffmpegRun fsd [c.normWav] c.norm now with ⟨r5, l5⟩
          rw [h5] at h
          cases r5 with
          | error e => simp at h
          | ok fse =>
            dsimp only at h
            split at h
            · simp only [Prod.mk.injEq, Except.ok.injEq] at h
              rw [← h.1]
              simp only [rm, if_neg hw, if_neg hnw]
              rw [ffmpegRun_preserves fsd [c.normWav] c.norm now fse l5 p hn h5,
                normalizeWavFile_preserves c fsc now fsd l4 p hnw h4,
                createWavVersion_preserves c fsb now fsc l3 p hw h3,
                extractCoverArt_preserves c fsa now fsb l2 p hc h2,
                createOriginalVersion_preserves c fs now fsa l1 p hb h1]
            · simp at h

theorem updateFileMetadata_preserves (c : Cfg) (md : Obj) (fs : FS)
    (now : Nat) (fs2 : FS) (l : List Ev) (p : String) (ht : p ≠ c.temp)
    (hn : p ≠ c.norm)
    (h : updateFileMetadata c md fs now = (.ok fs2, l)) : fs2 p = fs p := by
  unfold updateFileMetadata at h
  rcases h1 : ffmpegRun fs [c.norm] c.temp now with ⟨r1, l1⟩
  rw [h1] at h
  cases r1 with
  | error e => simp at h
  | ok fsa =>
    dsimp only at h
    rcases h2 : ffmpegRun (renameFs fsa c.temp c.norm) [c.norm, c.cover]
        c.temp now with ⟨r2, l2⟩
    rw [h2] at h
    cases r2 with
    | error e => simp at h
    | ok fsb =>
      simp only [Prod.mk.injEq, Except.ok.injEq] at h
      rw [← h.1]
      simp only [renameFs, if_neg hn, if_neg ht]
      rw [ffmpegRun_preserves (renameFs fsa c.temp c.norm) [c.norm, c.cover]
        c.temp now fsb l2 p ht h2]
      simp only [renameFs, if_neg hn, if_neg ht]
      exact ffmpegRun_preserves fs [c.norm] c.temp now fsa l1 p ht h1

theorem processFile_preserves (c : Cfg) (meta : Except MErr Obj)
    (sibs : List String) (fs : FS) (now : Nat) (fs2 : FS) (l : List Ev)
    (p : String) (hp : p ∉ writePaths c)
    (h : processFile c meta sibs fs now = (.ok fs2, l)) : fs2 p = fs p := by
  simp only [writePaths, List.mem_cons, List.not_mem_nil, or_false,
    not_or] at hp
  obtain ⟨hpf, hpn, hpb, hpw, hpnw, hpc, hpt⟩ := hp
  unfold processFile at h
  by_cases hmp3 : mp3Name c.file = true
  case neg => rw [if_neg hmp3] at h; simp at h
  rw [if_pos hmp3] at h
  cases hnu : needsUpdate fs c.norm (.fpath c.file) with
  | error e => rw [hnu] at h; simp at h
  | ok b1 =>
    rw [hnu] at h
    dsimp only at h
    rcases hdn : (if b1 then doNormalization c fs now else (.ok fs, []))
      with ⟨r1, l1⟩
    have hpres1 : ∀ fs1, r1 = .ok fs1 → fs1 p = fs p := by
      intro fs1 hr1
      cases b1 with
      | false =>
        rw [if_neg (by simp)] at hdn
        rw [hr1] at hdn
        simp only [Prod.mk.injEq, Except.ok.injEq] at hdn
        rw [← hdn.1]
      | true =>
        rw [if_pos rfl] at hdn
        rw [hr1] at hdn
        exact doNormalization_preserves c fs now fs1 l1 p hpb hpc hpw hpnw
          hpn hdn
    rw [hdn] at h
    cases r1 with
    | error e => simp at h
    | ok fs1 =>
      dsimp only at h
      cases meta with
      | error e => simp at h
      | ok obj =>
        dsimp only at h
        cases hb2 : (if b1 then Except.ok true
            else needsUpdate fs1 c.file (toRef (objGet obj "__mtime"))) with
        | error e => rw [hb2] at h; simp at h
        | ok b2 =>
          rw [hb2] at h
          dsimp only at h
          rcases hup : (if b2 then
              updateFileMetadata c
                (getFileMetadata (baseName c.file) sibs
                  (objErase obj "__mtime")) fs1 now
            else (.ok fs1, [])) with ⟨r2, l2⟩
          have hpres2 : ∀ fsb, r2 = .ok fsb → fsb p = fs1 p := by
            intro fsb hr2
            cases b2 with
            | false =>
              rw [if_neg (by simp)] at hup
              rw [hr2] at hup
              simp only [Prod.mk.injEq, Except.ok.injEq] at hup
              rw [← hup.1]
            | true =>
              rw [if_pos rfl] at hup
              rw [hr2] at hup
              exact updateFileMetadata_preserves c _ fs1 now fsb l2 p hpt
                hpn hup
          rw [hup] at h
          cases r2 with
          | error e => simp at h
          | ok fsb =>
            dsimp only at h
            cases b2 with
            | false =>
              rw [if_neg (by simp)] at h
              simp only [Prod.mk.injEq, Except.ok.injEq] at h
              rw [← h.1]
              rw [hpres2 fsb rfl, hpres1 fs1 rfl]
            | true =>
              rw [if_pos rfl] at h
              cases hn2 : fsb c.norm with
              | none => rw [hn2] at h; simp at h
              | some m =>
                rw [hn2] at h
                simp only [Prod.mk.injEq, Except.ok.injEq] at h
                rw [← h.1]
                simp only [wr, if_neg hpn, if_neg hpf]
                rw [hpres2 fsb rfl, hpres1 fs1 rfl]

theorem runList_preserves (now : Nat) (p : String) :
    ∀ (jobs : List Job) (fs fs2 : FS) (l : List Ev),
      (∀ k ∈ jobs, p ∉ writePaths k.c) →
      runList jobs fs now = (.ok fs2, l) → fs2 p = fs p := by
  intro jobs
  induction jobs with
  | nil =>
    intro fs fs2 l hdisj h
    unfold runList at h
    simp only [Prod.mk.injEq, Except.ok.injEq] at h
    rw [← h.1]
  | cons j rest ih =>
    intro fs fs2 l hdisj h
    unfold runList at h
    rcases hp : processFile j.c j.meta j.sibs fs now with ⟨r, l1⟩
    rw [hp] at h
    cases r with
    | error e => simp at h
    | ok fsA =>
      dsimp only at h
      rcases hr : runList rest fsA now with ⟨r2, l2⟩
      rw [hr] at h
      dsimp only at h
      have hr2 : r2 = .ok fs2 := by
        have h1 := congrArg Prod.fst h
        simpa using h1
      rw [hr2] at hr
      rw [ih fsA fs2 l2 (fun k hk => hdisj k (List.mem_cons_of_mem j hk)) hr]
      exact processFile_preserves j.c j.meta j.sibs fs now fsA l1 p
        (hdisj j (List.mem_cons_self j rest)) hp

/-! ## Post-state of a successful run -/

theorem processFile_post (c : Cfg) (meta : Except MErr Obj)
    (sibs : List String) (fs fsA : FS) (now : Nat) (l : List Ev)
    (hok : CfgOk c) (h : processFile c meta sibs fs now = (.ok fsA, l)) :
    mp3Name c.file = true ∧ (∃ obj, meta = .ok obj) ∧
    ((fsA = fs ∧
       needsUpdate fs c.norm (.fpath c.file) = .ok false ∧
       (∀ obj, meta = .ok obj →
         needsUpdate fs c.file (toRef (objGet obj "__mtime")) = .ok false)) ∨
     (fsA c.file = some now ∧ fsA c.norm = some (1000 * now))) := by
  have hfn : c.file ≠ c.norm := hok.1
  unfold processFile at h
  by_cases hmp3 : mp3Name c.file = true
  case neg => rw [if_neg hmp3] at h; simp at h
  rw [if_pos hmp3] at h
  refine ⟨hmp3, ?_⟩
  cases hnu : needsUpdate fs c.norm (.fpath c.file) with
  | error e => rw [hnu] at h; simp at h
  | ok b1 =>
    rw [hnu] at h
    dsimp only at h
    rcases hdn : (if b1 then doNormalization c fs now else (.ok fs, []))
      with ⟨r1, l1⟩
    rw [hdn] at h
    cases r1 with
    | error e => simp at h
    | ok fs1 =>
      dsimp only at h
      cases meta with
      | error e => simp at h
      | ok obj =>
        dsimp only at h
        refine ⟨⟨obj, rfl⟩, ?_⟩
        cases hb2 : (if b1 then Except.ok true
            else needsUpdate fs1 c.file (toRef (objGet obj "__mtime"))) with
        | error e => rw [hb2] at h; simp at h
        | ok b2 =>
          rw [hb2] at h
          dsimp only at h
          rcases hup : (if b2 then
              updateFileMetadata c
                (getFileMetadata (baseName c.file) sibs
                  (objErase obj "__mtime")) fs1 now
            else (.ok fs1, [])) with ⟨r2, l2⟩
          rw [hup] at h
          cases r2 with
          | error e => simp at h
          | ok fs2 =>
            dsimp only at h
            cases b2 with
            | true =>
              rw [if_pos rfl] at h
              cases hn2 : fs2 c.norm with
              | none => rw [hn2] at h; simp at h
              | some m =>
                rw [hn2] at h
                dsimp only at h
                have hfsA : wr (wr fs2 c.file now) c.norm (1000 * now) = fsA := by
                  have h1 := congrArg Prod.fst h
                  simpa using h1
                refine Or.inr ⟨?_, ?_⟩
                · rw [← hfsA]
                  simp [wr, hfn, (Ne.symm hfn : c.norm ≠ c.file)]
                · rw [← hfsA]
                  simp [wr]
            | false =>
              have hb1 : b1 = false := by
                cases b1 with
                | false => rfl
                | true => rw [if_pos rfl] at hb2; simp at hb2
              subst hb1
              rw [if_neg (by simp)] at hdn hup
              simp only [Prod.mk.injEq, Except.ok.injEq] at hdn hup
              rw [if_neg (by simp)] at h
              simp only [Prod.mk.injEq, Except.ok.injEq] at h
              rw [if_neg (by simp)] at hb2
              refine Or.inl ⟨?_, ?_, ?_⟩
              · rw [← h.1, ← hup.1, ← hdn.1]
              · rfl
              · intro obj2 hobj2
                have : obj2 = obj := by
                  injection hobj2 with hh
                  exact hh.symm
                subst this
                rw [← hdn.1] at hb2
                exact hb2

/-! ## Per-track idempotence -/

theorem needsUpdate_agree (fs1 fs2 : FS) (file : String) (ref : FileOrMTime)
    (hf : fs1 file = fs2 file)
    (hr : ∀ p, ref = .fpath p → fs1 p = fs2 p) :
    needsUpdate fs1 file ref = needsUpdate fs2 file ref := by
  cases ref with
  | fpath p =>
    unfold needsUpdate
    dsimp only
    rw [hf, hr p rfl]
  | fdate t =>
    unfold needsUpdate
    dsimp only
    rw [hf]
  | finvalid => rfl

theorem processFile_idem (c : Cfg) (meta : Except MErr Obj)
    (sibs : List String) (fs fsA fs1 : FS) (now1 now2 : Nat) (l : List Ev)
    (hok : CfgOk c) (hmw : MetaW meta now1)
    (h : processFile c meta sibs fs now1 = (.ok fsA, l))
    (hagF : fs1 c.file = fsA c.file) (hagN : fs1 c.norm = fsA c.norm) :
    processFile c meta sibs fs1 now2 = (.ok fs1, []) ∨
    processFile c meta sibs fs1 now2 = (.error .invalidArg, []) := by
  obtain ⟨hmp3, ⟨obj, hmeta⟩, hpost⟩ :=
    processFile_post c meta sibs fs fsA now1 l hok h
  subst hmeta
  have hc1 : needsUpdate fs1 c.norm (.fpath c.file) = .ok false := by
    rcases hpost with ⟨hfsA, hck1, _⟩ | ⟨hfile, hnorm⟩
    · rw [needsUpdate_agree fs1 fs c.norm (.fpath c.file)
        (by rw [hagN, hfsA]) (by intro p hp; cases hp; rw [hagF, hfsA])]
      exact hck1
    · rw [← hagF] at hfile
      rw [← hagN] at hnorm
      unfold needsUpdate
      dsimp only
      rw [hfile, hnorm]
      simp only [Except.ok.injEq, decide_eq_false_iff_not]
      omega
  rcases hmw obj rfl with hmt | ⟨t, ht, hmt⟩
  · right
    unfold processFile
    rw [if_pos hmp3, hc1]
    dsimp only
    rw [if_neg (by simp)]
    dsimp only
    rw [if_neg (by simp), hmt]
    rfl
  · left
    have hc2 : needsUpdate fs1 c.file (.fdate t) = .ok false := by
      rcases hpost with ⟨hfsA, _, hck2⟩ | ⟨hfile, hnorm⟩
      · have hck := hck2 obj rfl
        rw [hmt] at hck
        rw [needsUpdate_agree fs1 fs c.file (.fdate t)
          (by rw [hagF, hfsA]) (by intro p hp; cases hp)]
        exact hck
      · rw [← hagF] at hfile
        unfold needsUpdate
        dsimp only
        rw [hfile]
        simp only [Except.ok.injEq, decide_eq_false_iff_not]
        omega
    unfold processFile
    rw [if_pos hmp3, hc1]
    dsimp only
    rw [if_neg (by simp)]
    dsimp only
    rw [if_neg (by simp), hmt]
    show (match needsUpdate fs1 c.file (toRef (some (.vdate t))) with
      | Except.error e => (Except.error e, ([] : List Ev))
      | Except.ok b2 => _) = _
    rw [show toRef (some (.vdate t)) = .fdate t from rfl, hc2]
    dsimp only
    rw [if_neg (by simp)]
    dsimp only
    rw [if_neg (by simp)]
    rfl

/-! ## Claim C6 -/

/-- Claim C6: idempotence of the pipeline over a list of Tracks. If a run
over the job list completes at time `now1` (with sane per-track path
bundles, metadata watermarks no newer than `now1` — documents cannot be
newer than the present — and later tracks never writing an earlier
track's source or cache-artifact path), then a second run over the same
list with unchanged Track bytes and unchanged metadata documents performs
zero writes: its write log is empty — no normalization, no tag rewrite,
and no overwrite of any Track's path. -/
theorem c6_idempotent (now1 now2 : Nat) (jobs : List Job) (fs fs1 : FS)
    (l1 : List Ev) (hwf : JobsWf now1 jobs)
    (h1 : runList jobs fs now1 = (.ok fs1, l1)) :
    (runList jobs fs1 now2).2 = [] := by
  induction jobs generalizing fs l1 with
  | nil => rfl
  | cons j rest ih =>
    obtain ⟨hok, hmw, hdisj, hwfr⟩ := hwf
    unfold runList at h1
    rcases hp : processFile j.c j.meta j.sibs fs now1 with ⟨r, l⟩
    rw [hp] at h1
    cases r with
    | error e => simp at h1
    | ok fsA =>
      dsimp only at h1
      rcases hr : runList rest fsA now1 with ⟨r2, l2⟩
      rw [hr] at h1
      dsimp only at h1
      have hr2 : r2 = .ok fs1 := by
        have hh := congrArg Prod.fst h1
        simpa using hh
      rw [hr2] at hr
      have hagF : fs1 j.c.file = fsA j.c.file :=
        runList_preserves now1 j.c.file rest fsA fs1 l2
          (fun k hk => (hdisj k hk).1) hr
      have hagN : fs1 j.c.norm = fsA j.c.norm :=
        runList_preserves now1 j.c.norm rest fsA fs1 l2
          (fun k hk => (hdisj k hk).2) hr
      have hidem := processFile_idem j.c j.meta j.sibs fs fsA fs1 now1 now2
        l hok hmw hp hagF hagN
      unfold runList
      rcases hidem with he | he
      · rw [he]
        dsimp only
        rcases hrr : runList rest fs1 now2 with ⟨r3, l3⟩
        dsimp only
        show l3 = []
        have h3 := ih fsA l2 hwfr hr
        rw [hrr] at h3
        exact h3
      · rw [he]

/-- Witness for C6 at a concrete input: one track whose source and cache
artifact are both present and fresh; the first run at time 20 performs no
writes and completes, and the second run at time 21 has an empty write
log. -/
theorem c6_idempotent_witness :
    (runList [⟨cA, metaA, ["a.mp3"]⟩] fsDone 21).2 = [] :=
  c6_idempotent 20 21 [⟨cA, metaA, ["a.mp3"]⟩] fsDone fsDone []
    ⟨by decide,
     by
      intro obj hobj
      injection hobj with hh
      subst hh
      exact Or.inr ⟨3, by omega, rfl⟩,
     fun k hk => absurd hk (List.not_mem_nil k),
     trivial⟩
    rfl

end KidAudio
